import Mathlib

/-!
Verification of the privacy-accountant interface of `opacus/accountants/accountant.py`.

The source file defines the abstract class `IAccountant` (abstract methods
`step`, `get_epsilon`, `__len__`, `mechanism`) together with the concrete
method `get_optimizer_hook_fn`, whose inner `hook_fn` closure forwards
`(optim.noise_multiplier, sample_rate * optim.accumulated_iterations)` to
`self.step`.  The bodies of the abstract methods are not present in the
source; they are modelled here from the specification.  Real-valued
parameters are embedded as rationals so that every definition is executable.
-/

namespace Opacus

/-- One recorded optimization step: the pair of privacy-relevant parameters
appended to the ledger by a successful `step` call. -/
structure StepRecord where
  noise_multiplier : ℚ
  sample_rate : ℚ
deriving Repr, DecidableEq

/-- Errors surfaced by the accountant operations. -/
inductive AccErr where
  | invalidStepParameters
  | invalidDelta
deriving Repr, DecidableEq

/-- The accountant state: an append-only ledger of step records plus the
mechanism name fixed at construction. -/
structure Accountant where
  ledger : List StepRecord
  mechanism : String
deriving Repr, DecidableEq

/-- Construction of a fresh accountant: empty ledger, mechanism name fixed. -/
def Accountant.create (name : String) : Accountant :=
  ⟨[], name⟩

/-- Modelled from the spec: the per-step epsilon contribution of a reference
additive composition mechanism.  The spec leaves the internal mathematics of
every concrete `CompositionMechanism` out of scope; this reference mechanism
charges each step a squared-ratio cost, which is nonnegative for every
record. -/
def perStepEps (r : StepRecord) : ℚ :=
  r.sample_rate ^ 2 / r.noise_multiplier ^ 2

/-- Modelled from the spec: `CompositionMechanism.compute_epsilon` — a pure
function of the recorded history (the spec requires purity, a `0.0` result on
the empty history, and monotone growth; the internal math is mechanism-defined
and out of scope, so the reference mechanism sums per-step contributions and
ignores `delta` beyond validation done by the caller). -/
def compute_epsilon (history : List StepRecord) (_delta : ℚ) : ℚ :=
  (history.map perStepEps).sum

/-- Modelled from the spec: `IAccountant.step` (abstract in the source).
Constraints per the spec: `noise_multiplier > 0`, `0 < sample_rate <= 1`;
fails with `InvalidStepParameters` otherwise, leaving the ledger unchanged;
on success appends exactly one `StepRecord`.  The pair returned is
(outcome, post-state). -/
def IAccountant.step (acc : Accountant) (noise_multiplier sample_rate : ℚ) :
    Except AccErr Unit × Accountant :=
  if noise_multiplier ≤ 0 ∨ sample_rate ≤ 0 ∨ 1 < sample_rate then
    (Except.error AccErr.invalidStepParameters, acc)
  else
    (Except.ok (), ⟨acc.ledger ++ [⟨noise_multiplier, sample_rate⟩], acc.mechanism⟩)

/-- Modelled from the spec: `IAccountant.get_epsilon` (abstract in the
source).  Constraint: `0 < delta < 1`; fails with `InvalidDelta` otherwise,
before any ledger access; on success delegates to the mechanism's
`compute_epsilon` on a snapshot of the ledger and does not mutate state. -/
def IAccountant.get_epsilon (acc : Accountant) (delta : ℚ) :
    Except AccErr ℚ × Accountant :=
  if delta ≤ 0 ∨ 1 ≤ delta then
    (Except.error AccErr.invalidDelta, acc)
  else
    (Except.ok (compute_epsilon acc.ledger delta), acc)

/-- Modelled from the spec: `IAccountant.__len__` (abstract in the source) —
the number of steps taken so far, equal to the ledger length. -/
def IAccountant.len (acc : Accountant) : Nat :=
  acc.ledger.length

/-- Modelled from the spec: `IAccountant.mechanism` (abstract classmethod in
the source) — the mechanism name, fixed at construction. -/
def IAccountant.mechanism_name (acc : Accountant) : String :=
  acc.mechanism

/-- The `DPOptimizer` fields read by the hook closure in the source:
`optim.noise_multiplier` and `optim.accumulated_iterations`. -/
structure DPOptimizer where
  noise_multiplier : ℚ
  accumulated_iterations : ℕ
deriving Repr, DecidableEq

/-- The inner `hook_fn` closure of `get_optimizer_hook_fn`: it calls
`self.step(noise_multiplier=optim.noise_multiplier,
sample_rate=sample_rate * optim.accumulated_iterations)` — a single `step`
call with the product forwarded unclamped. -/
def hook_fn (acc : Accountant) (sample_rate : ℚ) (optim : DPOptimizer) :
    Except AccErr Unit × Accountant :=
  IAccountant.step acc optim.noise_multiplier
    (sample_rate * (optim.accumulated_iterations : ℚ))

/-- `IAccountant.get_optimizer_hook_fn`: returns the `hook_fn` closure
capturing `self` and `sample_rate`; constructing the hook performs no `step`
call, so the accountant state after construction is the input state. -/
def get_optimizer_hook_fn (acc : Accountant) (sample_rate : ℚ) :
    (DPOptimizer → Accountant → Except AccErr Unit × Accountant) × Accountant :=
  (fun optim a => hook_fn a sample_rate optim, acc)

/-- Interleavable operations on an accountant, used to state history-wide
invariants: a `step` call or a `get_epsilon` query. -/
inductive Op where
  | stepOp (noise_multiplier sample_rate : ℚ)
  | queryOp (delta : ℚ)
deriving Repr, DecidableEq

/-- Apply one operation to the accountant state, discarding the outcome. -/
def applyOp (acc : Accountant) : Op → Accountant
  | Op.stepOp nm sr => (IAccountant.step acc nm sr).2
  | Op.queryOp d => (IAccountant.get_epsilon acc d).2

/-- Run a sequence of operations left to right. -/
def runOps (acc : Accountant) : List Op → Accountant
  | [] => acc
  | op :: rest => runOps (applyOp acc op) rest

/-- An operation is a step with valid parameters. -/
def Op.validStep : Op → Prop
  | Op.stepOp nm sr => 0 < nm ∧ 0 < sr ∧ sr ≤ 1
  | Op.queryOp _ => False

instance : DecidablePred Op.validStep := by
  intro op
  cases op with
  | stepOp nm sr => exact inferInstanceAs (Decidable (0 < nm ∧ 0 < sr ∧ sr ≤ 1))
  | queryOp d => exact inferInstanceAs (Decidable False)

/-- An operation is either a query or a step with valid parameters. -/
def Op.wellFormed : Op → Prop
  | Op.stepOp nm sr => 0 < nm ∧ 0 < sr ∧ sr ≤ 1
  | Op.queryOp _ => True

instance : DecidablePred Op.wellFormed := by
  intro op
  cases op with
  | stepOp nm sr => exact inferInstanceAs (Decidable (0 < nm ∧ 0 < sr ∧ sr ≤ 1))
  | queryOp d => exact inferInstanceAs (Decidable True)

/-- The number of `step` calls in an operation sequence. -/
def numSteps (ops : List Op) : Nat :=
  ops.countP (fun op => match op with
    | Op.stepOp _ _ => true
    | Op.queryOp _ => false)

lemma perStepEps_nonneg (r : StepRecord) : 0 ≤ perStepEps r := by
  unfold perStepEps
  positivity

lemma compute_epsilon_append (h : List StepRecord) (r : StepRecord) (d : ℚ) :
    compute_epsilon (h ++ [r]) d = compute_epsilon h d + perStepEps r := by
  simp [compute_epsilon]

lemma step_mechanism (acc : Accountant) (nm sr : ℚ) :
    (IAccountant.step acc nm sr).2.mechanism = acc.mechanism := by
  unfold IAccountant.step
  split <;> rfl

lemma get_epsilon_state (acc : Accountant) (d : ℚ) :
    (IAccountant.get_epsilon acc d).2 = acc := by
  unfold IAccountant.get_epsilon
  split <;> rfl

/-- C1: the callback returned by `get_optimizer_hook_fn(expected_sample_rate)`,
invoked with an optimizer carrying `(noise_multiplier, accumulated_iterations)`,
performs exactly one `step` call: the ledger grows by exactly one record, with
the noise multiplier forwarded unchanged and the sample rate equal to
`expected_sample_rate * accumulated_iterations`. -/
theorem hook_scaling (acc acc' : Accountant) (rate : ℚ) (optim : DPOptimizer)
    (hnm : 0 < optim.noise_multiplier)
    (hsr0 : 0 < rate * (optim.accumulated_iterations : ℚ))
    (hsr1 : rate * (optim.accumulated_iterations : ℚ) ≤ 1) :
    ((get_optimizer_hook_fn acc rate).1 optim acc').2.ledger =
      acc'.ledger ++
        [⟨optim.noise_multiplier, rate * (optim.accumulated_iterations : ℚ)⟩] ∧
    ((get_optimizer_hook_fn acc rate).1 optim acc').2.ledger.length =
      acc'.ledger.length + 1 := by
  have hcond : ¬ (optim.noise_multiplier ≤ 0 ∨
      rate * (optim.accumulated_iterations : ℚ) ≤ 0 ∨
      1 < rate * (optim.accumulated_iterations : ℚ)) := by
    push_neg
    exact ⟨hnm, hsr0, hsr1⟩
  constructor
  · simp [get_optimizer_hook_fn, hook_fn, IAccountant.step, hcond]
  · simp [get_optimizer_hook_fn, hook_fn, IAccountant.step, hcond]

/-- Witness for `hook_scaling` at `expected_sample_rate = 1/100`,
`noise_multiplier = 6/5`, `accumulated_iterations = 4`. -/
theorem hook_scaling_witness :
    ((get_optimizer_hook_fn (Accountant.create "rdp") (1/100)).1 ⟨6/5, 4⟩
        (Accountant.create "rdp")).2.ledger =
      (Accountant.create "rdp").ledger ++
        [⟨(6:ℚ)/5, (1/100) * (((4:ℕ) : ℚ))⟩] ∧
    ((get_optimizer_hook_fn (Accountant.create "rdp") (1/100)).1 ⟨6/5, 4⟩
        (Accountant.create "rdp")).2.ledger.length =
      (Accountant.create "rdp").ledger.length + 1 :=
  hook_scaling (Accountant.create "rdp") (Accountant.create "rdp") (1/100)
    ⟨6/5, 4⟩ (by norm_num) (by norm_num) (by norm_num)

/-- C2: `step(noise_multiplier, sample_rate)` fails with
`InvalidStepParameters` if and only if `noise_multiplier <= 0` or
`sample_rate` lies outside `(0,1]`; on failure the ledger is unchanged
(no partial append), and on success exactly one `StepRecord` is appended
and no value is returned. -/
theorem step_validation (acc : Accountant) (nm sr : ℚ) :
    ((IAccountant.step acc nm sr).1 = Except.error AccErr.invalidStepParameters ↔
      nm ≤ 0 ∨ sr ≤ 0 ∨ 1 < sr) ∧
    ((IAccountant.step acc nm sr).1 = Except.error AccErr.invalidStepParameters →
      (IAccountant.step acc nm sr).2 = acc) ∧
    (0 < nm → 0 < sr → sr ≤ 1 →
      (IAccountant.step acc nm sr).1 = Except.ok () ∧
      (IAccountant.step acc nm sr).2.ledger = acc.ledger ++ [⟨nm, sr⟩]) := by
  by_cases hc : nm ≤ 0 ∨ sr ≤ 0 ∨ 1 < sr
  · refine ⟨by simp [IAccountant.step, hc], by simp [IAccountant.step, hc], ?_⟩
    intro h1 h2 h3
    rcases hc with h | h | h
    · exact absurd h1 (not_lt.mpr h)
    · exact absurd h2 (not_lt.mpr h)
    · exact absurd h3 (not_le.mpr h)
  · refine ⟨by simp [IAccountant.step, hc], by simp [IAccountant.step, hc], ?_⟩
    intro _ _ _
    exact ⟨by simp [IAccountant.step, hc], by simp [IAccountant.step, hc]⟩

/-- Witness for `step_validation`: `step(0, 1/2)` fails and leaves the ledger
unchanged; `step(1, 3/2)` fails; and a valid call appends one record. -/
theorem step_validation_witness :
    (((IAccountant.step (Accountant.create "rdp") 0 (1/2)).1
        = Except.error AccErr.invalidStepParameters ↔
      (0:ℚ) ≤ 0 ∨ (1/2:ℚ) ≤ 0 ∨ 1 < (1/2:ℚ)) ∧
    ((IAccountant.step (Accountant.create "rdp") 0 (1/2)).1
        = Except.error AccErr.invalidStepParameters →
      (IAccountant.step (Accountant.create "rdp") 0 (1/2)).2
        = Accountant.create "rdp") ∧
    ((0:ℚ) < 0 → (0:ℚ) < 1/2 → (1/2:ℚ) ≤ 1 →
      (IAccountant.step (Accountant.create "rdp") 0 (1/2)).1 = Except.ok () ∧
      (IAccountant.step (Accountant.create "rdp") 0 (1/2)).2.ledger
        = (Accountant.create "rdp").ledger ++ [⟨0, 1/2⟩])) ∧
    (IAccountant.step (Accountant.create "rdp") 1 (3/2)).1
        = Except.error AccErr.invalidStepParameters ∧
    (IAccountant.step (Accountant.create "rdp") 1 (1/2)).1 = Except.ok () :=
  ⟨step_validation (Accountant.create "rdp") 0 (1/2),
   ((step_validation (Accountant.create "rdp") 1 (3/2)).1.mpr (by norm_num)),
   ((step_validation (Accountant.create "rdp") 1 (1/2)).2.2
      (by norm_num) (by norm_num) (by norm_num)).1⟩

/-- C3: `get_epsilon(delta)` fails with `InvalidDelta` if and only if `delta`
lies outside the open interval `(0,1)`; on an invalid delta the error is the
same for every accountant state (no ledger access decides it), and the
accountant state is unchanged. -/
theorem delta_validation (acc : Accountant) (delta : ℚ) :
    ((IAccountant.get_epsilon acc delta).1 = Except.error AccErr.invalidDelta ↔
      delta ≤ 0 ∨ 1 ≤ delta) ∧
    (IAccountant.get_epsilon acc delta).2 = acc ∧
    (delta ≤ 0 ∨ 1 ≤ delta →
      ∀ acc2 : Accountant, (IAccountant.get_epsilon acc2 delta).1
        = Except.error AccErr.invalidDelta) := by
  refine ⟨?_, get_epsilon_state acc delta, ?_⟩
  · by_cases hc : delta ≤ 0 ∨ 1 ≤ delta <;> simp [IAccountant.get_epsilon, hc]
  · intro hc acc2
    simp [IAccountant.get_epsilon, hc]

/-- Witness for `delta_validation`: both `delta = 0` and `delta = 1` fail with
`InvalidDelta` on a fresh accountant, independent of the ledger. -/
theorem delta_validation_witness :
    (IAccountant.get_epsilon (Accountant.create "rdp") 0).1
      = Except.error AccErr.invalidDelta ∧
    (IAccountant.get_epsilon (Accountant.create "rdp") 1).1
      = Except.error AccErr.invalidDelta ∧
    (IAccountant.get_epsilon ⟨[⟨1, 1/2⟩], "rdp"⟩ 0).1
      = Except.error AccErr.invalidDelta :=
  ⟨(delta_validation (Accountant.create "rdp") 0).1.mpr (by norm_num),
   (delta_validation (Accountant.create "rdp") 1).1.mpr (by norm_num),
   (delta_validation (Accountant.create "rdp") 0).2.2 (by norm_num) ⟨[⟨1, 1/2⟩], "rdp"⟩⟩

/-- C4: for a fixed valid delta, appending one extra valid step via `step`
never decreases the epsilon reported by `get_epsilon`. -/
theorem epsilon_monotone (acc acc2 : Accountant) (nm sr delta : ℚ)
    (hstep : IAccountant.step acc nm sr = (Except.ok (), acc2))
    (hd0 : 0 < delta) (hd1 : delta < 1) :
    ∃ e e2 : ℚ, (IAccountant.get_epsilon acc delta).1 = Except.ok e ∧
      (IAccountant.get_epsilon acc2 delta).1 = Except.ok e2 ∧ e ≤ e2 := by
  have hd : ¬ (delta ≤ 0 ∨ 1 ≤ delta) := by push_neg; exact ⟨hd0, hd1⟩
  by_cases hc : nm ≤ 0 ∨ sr ≤ 0 ∨ 1 < sr
  · exfalso
    have : (IAccountant.step acc nm sr).1 = Except.error AccErr.invalidStepParameters := by
      simp [IAccountant.step, hc]
    rw [hstep] at this
    exact Except.noConfusion this
  · have hl : acc2.ledger = acc.ledger ++ [⟨nm, sr⟩] := by
      have h2 : (IAccountant.step acc nm sr).2 = acc2 := by rw [hstep]
      rw [← h2]
      simp [IAccountant.step, hc]
    refine ⟨compute_epsilon acc.ledger delta, compute_epsilon acc2.ledger delta,
      by simp [IAccountant.get_epsilon, hd], by simp [IAccountant.get_epsilon, hd], ?_⟩
    rw [hl, compute_epsilon_append]
    have := perStepEps_nonneg ⟨nm, sr⟩
    linarith

/-- Witness for `epsilon_monotone`: stepping a fresh accountant with
`noise_multiplier = 1`, `sample_rate = 1/2` does not decrease epsilon at
`delta = 1/100`. -/
theorem epsilon_monotone_witness :
    ∃ e e2 : ℚ,
      (IAccountant.get_epsilon (Accountant.create "rdp") (1/100)).1 = Except.ok e ∧
      (IAccountant.get_epsilon ⟨[⟨1, 1/2⟩], "rdp"⟩ (1/100)).1 = Except.ok e2 ∧
      e ≤ e2 :=
  epsilon_monotone (Accountant.create "rdp") ⟨[⟨1, 1/2⟩], "rdp"⟩ 1 (1/2) (1/100)
    (by simp [IAccountant.step, Accountant.create]; norm_num)
    (by norm_num) (by norm_num)

/-- C5: on a fresh accountant with zero recorded steps, `get_epsilon` returns
`0` for every valid delta in `(0,1)` rather than raising an error. -/
theorem empty_history_epsilon (name : String) (delta : ℚ)
    (hd0 : 0 < delta) (hd1 : delta < 1) :
    (IAccountant.get_epsilon (Accountant.create name) delta).1 = Except.ok 0 := by
  have hd : ¬ (delta ≤ 0 ∨ 1 ≤ delta) := by push_neg; exact ⟨hd0, hd1⟩
  simp [IAccountant.get_epsilon, hd, Accountant.create, compute_epsilon]

/-- Witness for `empty_history_epsilon` at `delta = 1/100000`. -/
theorem empty_history_epsilon_witness :
    (IAccountant.get_epsilon (Accountant.create "rdp") (1/100000)).1
      = Except.ok 0 :=
  empty_history_epsilon "rdp" (1/100000) (by norm_num) (by norm_num)


lemma step_len_valid (acc : Accountant) (nm sr : ℚ)
    (h1 : 0 < nm) (h2 : 0 < sr) (h3 : sr ≤ 1) :
    (IAccountant.step acc nm sr).2.ledger.length = acc.ledger.length + 1 := by
  have hc : ¬ (nm ≤ 0 ∨ sr ≤ 0 ∨ 1 < sr) := by push_neg; exact ⟨h1, h2, h3⟩
  simp [IAccountant.step, hc]

lemma len_runOps (ops : List Op) (acc : Accountant)
    (h : ∀ op ∈ ops, Op.wellFormed op) :
    IAccountant.len (runOps acc ops) = IAccountant.len acc + numSteps ops := by
  induction ops generalizing acc with
  | nil => simp [runOps, numSteps]
  | cons op rest ih =>
    have hop := h op (List.mem_cons_self op rest)
    have hrest : ∀ op2 ∈ rest, Op.wellFormed op2 :=
      fun op2 hm => h op2 (List.mem_cons_of_mem op hm)
    cases op with
    | stepOp nm sr =>
      obtain ⟨h1, h2, h3⟩ := hop
      have := step_len_valid acc nm sr h1 h2 h3
      simp only [runOps, applyOp]
      rw [ih _ hrest]
      simp [IAccountant.len, this, numSteps, List.countP_cons]
      omega
    | queryOp d =>
      simp only [runOps, applyOp, get_epsilon_state]
      rw [ih _ hrest]
      simp [numSteps, List.countP_cons]

lemma runOps_mechanism (ops : List Op) (acc : Accountant) :
    (runOps acc ops).mechanism = acc.mechanism := by
  induction ops generalizing acc with
  | nil => rfl
  | cons op rest ih =>
    cases op with
    | stepOp nm sr =>
      simp only [runOps, applyOp]
      rw [ih, step_mechanism]
    | queryOp d =>
      simp only [runOps, applyOp, get_epsilon_state]
      exact ih acc

/-- C6: `get_epsilon` does not mutate the accountant, and calling it twice
with no intervening `step` returns identical results: epsilon is a pure,
deterministic function of the recorded history and delta. -/
theorem epsilon_query_pure (acc : Accountant) (delta : ℚ) :
    (IAccountant.get_epsilon acc delta).2 = acc ∧
    (IAccountant.get_epsilon acc delta).2.ledger = acc.ledger ∧
    (IAccountant.get_epsilon ((IAccountant.get_epsilon acc delta).2) delta).1
      = (IAccountant.get_epsilon acc delta).1 := by
  refine ⟨get_epsilon_state acc delta, ?_, ?_⟩
  · rw [get_epsilon_state]
  · rw [get_epsilon_state]

/-- C7: after any sequence of operations on a fresh accountant in which every
`step` has valid parameters (with `get_epsilon` queries interleaved freely),
`len` returns exactly the number of `step` calls, and the count equals the
ledger length. -/
theorem length_accuracy (ops : List Op) (name : String)
    (h : ∀ op ∈ ops, Op.wellFormed op) :
    IAccountant.len (runOps (Accountant.create name) ops) = numSteps ops ∧
    IAccountant.len (runOps (Accountant.create name) ops)
      = (runOps (Accountant.create name) ops).ledger.length := by
  refine ⟨?_, rfl⟩
  rw [len_runOps ops _ h]
  simp [IAccountant.len, Accountant.create]

/-- Witness for `length_accuracy`: two valid steps with a query in between
yield `len = 2`. -/
theorem length_accuracy_witness :
    IAccountant.len (runOps (Accountant.create "rdp")
      [Op.stepOp 1 (1/2), Op.queryOp (1/100), Op.stepOp 2 1])
      = numSteps [Op.stepOp 1 (1/2), Op.queryOp (1/100), Op.stepOp 2 1] ∧
    IAccountant.len (runOps (Accountant.create "rdp")
      [Op.stepOp 1 (1/2), Op.queryOp (1/100), Op.stepOp 2 1])
      = (runOps (Accountant.create "rdp")
          [Op.stepOp 1 (1/2), Op.queryOp (1/100), Op.stepOp 2 1]).ledger.length :=
  length_accuracy [Op.stepOp 1 (1/2), Op.queryOp (1/100), Op.stepOp 2 1] "rdp"
    (by
      intro op hm
      simp only [List.mem_cons, List.not_mem_nil, or_false] at hm
      rcases hm with h | h | h <;> subst h <;> simp [Op.wellFormed] <;> norm_num)

/-- C8: the mechanism name is a constant of the accountant: it is unaffected
by any sequence of `step` and `get_epsilon` operations, and every accountant
constructed with a given name reports that name forever. -/
theorem mechanism_constant (acc : Accountant) (ops : List Op) (name : String) :
    IAccountant.mechanism_name (runOps acc ops) = IAccountant.mechanism_name acc ∧
    IAccountant.mechanism_name (runOps (Accountant.create name) ops) = name := by
  constructor
  · exact runOps_mechanism ops acc
  · rw [IAccountant.mechanism_name, runOps_mechanism]
    rfl

/-- C9: constructing the hook via `get_optimizer_hook_fn` performs no `step`
call: the accountant state, its ledger and its length are unchanged; only
invoking the returned callback mutates the accountant. -/
theorem hook_construction_no_step (acc : Accountant) (rate : ℚ) :
    (get_optimizer_hook_fn acc rate).2 = acc ∧
    (get_optimizer_hook_fn acc rate).2.ledger = acc.ledger ∧
    IAccountant.len (get_optimizer_hook_fn acc rate).2 = IAccountant.len acc :=
  ⟨rfl, rfl, rfl⟩

/-- C10: the hook applies no clamping or validation to the product
`sample_rate * accumulated_iterations`: for every rate in `(0,1]` there exist
iteration counts (any value above `1/rate`) for which the callback forwards a
sample rate strictly greater than `1` to `step`, and the resulting failure is
decided entirely by the parameter check inside `step`. -/
theorem hook_no_clamping (rate : ℚ) (h0 : 0 < rate) (h1 : rate ≤ 1) :
    (∃ k : ℕ, 1 / rate < (k : ℚ)) ∧
    ∀ k : ℕ, 1 / rate < (k : ℚ) →
      1 < rate * (k : ℚ) ∧
      ∀ (acc : Accountant) (nm : ℚ),
        hook_fn acc rate ⟨nm, k⟩ = IAccountant.step acc nm (rate * (k : ℚ)) ∧
        (hook_fn acc rate ⟨nm, k⟩).1 = Except.error AccErr.invalidStepParameters := by
  constructor
  · exact exists_nat_gt (1 / rate)
  · intro k hk
    have hgt : 1 < rate * (k : ℚ) := by
      rw [div_lt_iff h0] at hk
      linarith [hk]
    refine ⟨hgt, ?_⟩
    intro acc nm
    refine ⟨rfl, ?_⟩
    have hc : nm ≤ 0 ∨ rate * (k : ℚ) ≤ 0 ∨ 1 < rate * (k : ℚ) :=
      Or.inr (Or.inr hgt)
    simp [hook_fn, IAccountant.step, hc]

/-- Witness for `hook_no_clamping`: with `rate = 1/100` and
`accumulated_iterations = 101`, the hook forwards sample rate `101/100 > 1`
and `step` rejects it. -/
theorem hook_no_clamping_witness :
    1 < (1/100 : ℚ) * ((101 : ℕ) : ℚ) ∧
    hook_fn (Accountant.create "rdp") (1/100) ⟨1, 101⟩
      = IAccountant.step (Accountant.create "rdp") 1 ((1/100) * ((101 : ℕ) : ℚ)) ∧
    (hook_fn (Accountant.create "rdp") (1/100) ⟨1, 101⟩).1
      = Except.error AccErr.invalidStepParameters := by
  have h := (hook_no_clamping (1/100) (by norm_num) (by norm_num)).2 101 (by norm_num)
  exact ⟨h.1, (h.2 (Accountant.create "rdp") 1).1, (h.2 (Accountant.create "rdp") 1).2⟩

end Opacus
